import Mathlib

/-!
Shallow embedding of the hapi-rbac policy evaluation engine
(lib/index.js: `internals.evaluateTarget`, `internals._targetApplies`,
`internals.evaluateRule`, `internals.evaluatePolicy`, `internals.combineAlg`,
and the `DataRetrievalRouter` object), together with theorems checking the
natural-language specification against this code.

JavaScript values that the engine inspects are modelled by `JsValue`.
Arrays carry an explicit reference tag (`ref`) so that JavaScript's strict
equality `===` on objects — which is reference equality, not structural
equality — can be expressed: two array values denote the same runtime
object exactly when their tags agree.  Machine numbers are modelled by
`Int` (the engine only ever compares the constants 0 and 1 against
effect values).  Fallible code paths (the `callback(Boom.badImplementation(...))`
calls) are modelled with `Except Err`, where `Err` is the error message.
-/

namespace HapiRbac

/-- Error values: the message carried by the `Boom.badImplementation` error. -/
def Err : Type := String

instance : DecidableEq Err := instDecidableEqString

/-- A JavaScript value, as far as the engine inspects values: strings,
numbers, booleans, arrays (with a reference tag modelling object identity),
`undefined` and `null`. -/
inductive JsValue where
  | str (s : String)
  | num (n : Int)
  | boolean (b : Bool)
  | arr (ref : Nat) (elems : List JsValue)
  | undefined
  | null

/-- JavaScript strict equality `===` on the modelled values: structural on
primitives, reference (tag) equality on arrays, no cross-type coercion. -/
def jsEq : JsValue → JsValue → Bool
  | .str a, .str b => a == b
  | .num a, .num b => a == b
  | .boolean a, .boolean b => a == b
  | .arr i _, .arr j _ => i == j
  | .undefined, .undefined => true
  | .null, .null => true
  | _, _ => false

/-- The three-valued decision: the engine's constants `PERMIT = 1`,
`DENY = 0`, `UNDETERMINED = 3`. -/
inductive Decision where
  | PERMIT
  | DENY
  | UNDETERMINED
deriving DecidableEq

/-- The attribute environment seen by `internals.evaluateTarget`: what
`dataRetriever.get(target[i].type)` returns for each attribute reference
string.  Absent attributes are `.undefined` or `.null` values. -/
def Env : Type := String → JsValue

/-- One match item `{type, value}` of a target array:
`type` is the attribute reference, `value` the expected value. -/
structure TargetItem where
  type : String
  value : JsValue

/-- A target as `internals.evaluateTarget` distinguishes its shapes:
`absent` is a falsy target (applies by default); `invalid` is a truthy
value that is not an array, or a zero-length array; `arr comb items` is an
array whose first element is `comb` and whose remaining elements are the
match items (so the JavaScript array length is `1 + items.length`). -/
inductive Target where
  | absent
  | invalid
  | arr (comb : JsValue) (items : List TargetItem)

/-- The message of the malformed-target `Boom.badImplementation` error. -/
def targetFormatError : Err :=
  "RBAC target error: invalid format. Should be an array with match type and items"

/-- `internals._targetApplies(target, value)`: strict equality, or
membership (`value.indexOf(target) !== -1`, which tests elements with
strict equality) when the actual value is an array. -/
def targetApplies (target value : JsValue) : Bool :=
  if jsEq target value then true
  else
    match value with
    | .arr _ elems => elems.any (fun e => jsEq e target)
    | _ => false

/-- The `for` loop of `internals.evaluateTarget` over the match items
`target[1] .. target[target.length-1]`, with the final
`callback(null, target[0] === 'all-of')` as base case. -/
def evaluateTargetLoop (comb : JsValue) (items : List TargetItem) (env : Env) : Bool :=
  match items with
  | [] => jsEq comb (.str "all-of")
  | item :: rest =>
    let value := env item.type
    let result := targetApplies item.value value
    if result && jsEq comb (.str "any-of") then true
    else if !result && jsEq comb (.str "all-of") then false
    else evaluateTargetLoop comb rest env

/-- `internals.evaluateTarget(target, dataRetriever, callback)`:
falsy target applies by default; a truthy non-array or an array of length
below 2 is a configuration error; otherwise the loop over the items runs. -/
def evaluateTarget (target : Target) (env : Env) : Except Err Bool :=
  match target with
  | .absent => .ok true
  | .invalid => .error targetFormatError
  | .arr comb items =>
    if items.isEmpty then .error targetFormatError
    else .ok (evaluateTargetLoop comb items env)

/-- A rule object as `internals.evaluateRule` reads it: a `target` and an
`effect` value (absent effect is the value `undefined`). -/
structure Rule where
  target : Target
  effect : JsValue

/-- The body of `internals.evaluateRule` once the rule object is known to
be present: evaluate the rule's target; a non-applying target yields
UNDETERMINED; otherwise the `switch (rule.effect)` maps `'permit'` and the
constant `PERMIT = 1` to PERMIT, `'deny'` and `DENY = 0` to DENY, and any
other value to the invalid-effect configuration error. -/
def evaluateRuleOn (target : Target) (effect : JsValue) (env : Env) : Except Err Decision :=
  match evaluateTarget target env with
  | .error e => .error e
  | .ok applies =>
    if !applies then .ok .UNDETERMINED
    else
      if jsEq effect (.str "permit") || jsEq effect (.num 1) then .ok .PERMIT
      else if jsEq effect (.str "deny") || jsEq effect (.num 0) then .ok .DENY
      else .error "RBAC rule error: invalid effect"

/-- `internals.evaluateRule(rule, dataRetriever, callback)`: a missing
(falsy) rule object is the configuration error `'RBAC rule is missing'`;
otherwise evaluate the rule. -/
def evaluateRule (rule : Option Rule) (env : Env) : Except Err Decision :=
  match rule with
  | none => .error "RBAC rule is missing"
  | some r => evaluateRuleOn r.target r.effect env

/-- The collection of child results performed by `Async.parallel` over the
tasks `fn.bind(null, items[i], information)`: every item is evaluated in
order and the first error, if any, aborts the combination. -/
def runAll {α : Type} (fn : α → Except Err Decision) : List α → Except Err (List Decision)
  | [] => .ok []
  | x :: xs =>
    match fn x with
    | .error e => .error e
    | .ok d =>
      match runAll fn xs with
      | .error e => .error e
      | .ok ds => .ok (d :: ds)

/-- The scan of `internals.combineAlg['permit-overrides']` over the child
results collected by `Async.parallel`: the first `results[i] === PERMIT`
returns PERMIT, otherwise DENY. -/
def permitOverridesScan (results : List Decision) : Decision :=
  if results.any (· == .PERMIT) then .PERMIT else .DENY

/-- The scan of `internals.combineAlg['deny-overrides']` over the child
results: the first `results[i] === DENY` returns DENY, otherwise PERMIT. -/
def denyOverridesScan (results : List Decision) : Decision :=
  if results.any (· == .DENY) then .DENY else .PERMIT

/-- `internals.combineAlg['permit-overrides'](items, information, fn, callback)`:
a missing (`none`) or empty item list yields UNDETERMINED; otherwise every
child is evaluated with `fn` (`Async.parallel`, failing fast on a child
error) and the result list is scanned for a PERMIT.  The item list is
`Option (List α)` because the code checks `!items || items.length === 0`. -/
def combinePermitOverrides {α : Type} (items : Option (List α))
    (fn : α → Except Err Decision) : Except Err Decision :=
  match items with
  | none => .ok .UNDETERMINED
  | some l =>
    if l.isEmpty then .ok .UNDETERMINED
    else
      match runAll fn l with
      | .error e => .error e
      | .ok results => .ok (permitOverridesScan results)

/-- `internals.combineAlg['deny-overrides'](items, information, fn, callback)`:
a missing or empty item list yields UNDETERMINED; otherwise every child is
evaluated and the result list is scanned for a DENY. -/
def combineDenyOverrides {α : Type} (items : Option (List α))
    (fn : α → Except Err Decision) : Except Err Decision :=
  match items with
  | none => .ok .UNDETERMINED
  | some l =>
    if l.isEmpty then .ok .UNDETERMINED
    else
      match runAll fn l with
      | .error e => .error e
      | .ok results => .ok (denyOverridesScan results)

/-- The two combining algorithms present in the `internals.combineAlg`
table (the comment also names only-one-applicable and first-applicable,
but the table has no entry for them). -/
inductive AlgId where
  | permitOverrides
  | denyOverrides
deriving DecidableEq

/-- The result scan of the combining algorithm identified by an `AlgId`. -/
def AlgId.scan : AlgId → List Decision → Decision
  | .permitOverrides => permitOverridesScan
  | .denyOverrides => denyOverridesScan

/-- Key lookup in the `internals.combineAlg` table. -/
def combineAlgLookup (name : String) : Option AlgId :=
  if name = "permit-overrides" then some .permitOverrides
  else if name = "deny-overrides" then some .denyOverrides
  else none

/-- The `apply` field of a policy node: either a string identifier
(`.name`) or a combining-algorithm function value (`.alg`, the
`instanceof Function` case; the functions the engine ever stores there are
the entries of its own table). -/
inductive ApplyField where
  | name (s : String)
  | alg (a : AlgId)
deriving DecidableEq

/-- The `apply`-normalisation prelude of `internals.evaluatePolicy`
(lines `if (!item.apply) ...` through `item.apply = internals.combineAlg[item.apply]`):
a falsy `apply` defaults to the string `'permit-overrides'`; a non-function
value is looked up in the table, an unknown identifier being a
configuration error.  Returns the resolved algorithm. -/
def resolveApply (a : Option ApplyField) : Except Err AlgId :=
  match a.getD (.name "permit-overrides") with
  | .alg f => .ok f
  | .name s =>
    match combineAlgLookup s with
    | some f => .ok f
    | none => .error ("RBAC error: combinatory algorithm does not exist: " ++ s)

mutual
/-- A policy node as `internals.evaluatePolicy` reads it: a `target`, an
optional `apply` field, optionally a `policies` array of nested nodes
(a policy set), optionally a `rules` array of rule objects (a policy), and
an `effect` value used when the node is itself treated as a bare rule.
An absent effect is the value `undefined`. -/
inductive PolicyNode where
  | mk (target : Target) (applyF : Option ApplyField) (policies : Option PolicyList)
      (rules : Option (List Rule)) (effect : JsValue)
/-- A list of nested policy nodes (mutual with `PolicyNode`). -/
inductive PolicyList where
  | nil
  | cons (head : PolicyNode) (tail : PolicyList)
end

/-- The `target` field of a policy node. -/
def PolicyNode.target : PolicyNode → Target
  | .mk t _ _ _ _ => t

/-- The `apply` field of a policy node. -/
def PolicyNode.applyF : PolicyNode → Option ApplyField
  | .mk _ a _ _ _ => a

/-- The `policies` field of a policy node. -/
def PolicyNode.policies : PolicyNode → Option PolicyList
  | .mk _ _ ps _ _ => ps

/-- The `rules` field of a policy node. -/
def PolicyNode.rules : PolicyNode → Option (List Rule)
  | .mk _ _ _ rs _ => rs

/-- The `effect` field of a policy node. -/
def PolicyNode.effect : PolicyNode → JsValue
  | .mk _ _ _ _ e => e

/-- Emptiness test for `PolicyList` (the `items.length === 0` check). -/
def PolicyList.isNil : PolicyList → Bool
  | .nil => true
  | .cons _ _ => false

/-- Convert a `PolicyList` into an ordinary list. -/
def PolicyList.toList : PolicyList → List PolicyNode
  | .nil => []
  | .cons h t => h :: t.toList

mutual
/-- `internals.evaluatePolicy` on a non-null node.  The JavaScript
function mutates the node (`item.apply = ...`) and reports the decision
through its callback; the model returns the pair of the decision and the
updated node (the updated node of a policy set contains the recursively
updated children, since the children are mutated in place in the shared
document).  Steps, in source order: normalise/resolve `apply`; evaluate
the target, a non-applying target being UNDETERMINED; then dispatch on
`policies` (combine over nested nodes), `rules` (combine over rule
objects), or treat the node itself as a rule.  The `policies`/`rules`
branches inline the body of the resolved combining algorithm: empty list
check (`items` is truthy there, so only `length === 0` can fire), child
evaluation (`Async.parallel`, failing fast on a child error), and the
algorithm's result scan. -/
def evaluatePolicyNode (n : PolicyNode) (env : Env) : Except Err (Decision × PolicyNode) :=
  match n with
  | .mk target applyF policies rules effect =>
    match resolveApply applyF with
    | .error e => .error e
    | .ok alg =>
      match evaluateTarget target env with
      | .error e => .error e
      | .ok applies =>
        if !applies then .ok (.UNDETERMINED, .mk target (some (.alg alg)) policies rules effect)
        else
          match policies with
          | some ps =>
            if ps.isNil then .ok (.UNDETERMINED, .mk target (some (.alg alg)) policies rules effect)
            else
              match evaluatePolicyList ps env with
              | .error e => .error e
              | .ok (ds, ps') =>
                .ok (alg.scan ds, .mk target (some (.alg alg)) (some ps') rules effect)
          | none =>
            match rules with
            | some rl =>
              if rl.isEmpty then
                .ok (.UNDETERMINED, .mk target (some (.alg alg)) policies rules effect)
              else
                match runAll (fun r => evaluateRule (some r) env) rl with
                | .error e => .error e
                | .ok ds => .ok (alg.scan ds, .mk target (some (.alg alg)) policies rules effect)
            | none =>
              match evaluateRuleOn target effect env with
              | .error e => .error e
              | .ok d => .ok (d, .mk target (some (.alg alg)) policies rules effect)

/-- The evaluation of the children of a policy set (the `Async.parallel`
tasks built from `fn.bind(null, items[i], information)` with
`fn = internals.evaluatePolicy`): the decisions in order, together with
the updated children. -/
def evaluatePolicyList (l : PolicyList) (env : Env) : Except Err (List Decision × PolicyList) :=
  match l with
  | .nil => .ok ([], .nil)
  | .cons h t =>
    match evaluatePolicyNode h env with
    | .error e => .error e
    | .ok (d, h') =>
      match evaluatePolicyList t env with
      | .error e => .error e
      | .ok (ds, t') => .ok (d :: ds, .cons h' t')
end

/-- `internals.evaluatePolicy(item, dataRetriever, callback)` including the
initial `!item` null check. -/
def evaluatePolicy (item : Option PolicyNode) (env : Env) : Except Err (Decision × PolicyNode) :=
  match item with
  | none => .error "RBAC configuration error: null item"
  | some n => evaluatePolicyNode n env

mutual
/-- Erase every `apply` field of a policy tree (used to state which parts
of the document an evaluation can change). -/
def eraseApply : PolicyNode → PolicyNode
  | .mk t _ ps rs e =>
    .mk t none (match ps with | none => none | some l => some (eraseApplyList l)) rs e
/-- `eraseApply` on each node of a `PolicyList`. -/
def eraseApplyList : PolicyList → PolicyList
  | .nil => .nil
  | .cons h t => .cons (eraseApply h) (eraseApplyList t)
end

/-- A data retriever function `(source, key, context) => value`, where the
per-evaluation context object is modelled as an optional `JsValue`. -/
def RetrieverFn : Type := String → String → Option JsValue → JsValue

/-- The `DataRetrievalRouter` object: a table of retrievers (the
`this.retrievers` object, modelled as an association list whose first
binding for a source wins, as an object assigned once per source), an
optional parent router, and an optional bound context. -/
inductive DataRetrievalRouter where
  | mk (retrievers : List (String × RetrieverFn)) (parent : Option DataRetrievalRouter)
      (context : Option JsValue)

/-- Lookup of `this.retrievers[source]` (a registered retriever is a
function, hence truthy; an absent key is `undefined`, hence falsy). -/
def lookupRetriever (l : List (String × RetrieverFn)) (source : String) : Option RetrieverFn :=
  match l with
  | [] => none
  | (k, f) :: rest => if k = source then some f else lookupRetriever rest source

/-- The `retrievers` table of a router. -/
def DataRetrievalRouter.retrievers : DataRetrievalRouter → List (String × RetrieverFn)
  | .mk rs _ _ => rs

/-- The `parent` of a router. -/
def DataRetrievalRouter.parent : DataRetrievalRouter → Option DataRetrievalRouter
  | .mk _ p _ => p

/-- The bound `context` of a router. -/
def DataRetrievalRouter.context : DataRetrievalRouter → Option JsValue
  | .mk _ _ c => c

/-- `DataRetrievalRouter.prototype.createChild(context)`: a new router
with an empty retriever table, the receiver as parent, and the given
context bound. -/
def DataRetrievalRouter.createChild (r : DataRetrievalRouter) (context : JsValue) :
    DataRetrievalRouter :=
  .mk [] (some r) (some context)

/-- `DataRetrievalRouter.prototype._register(handles, retriever, options)`:
registering a source that is already bound is an error unless
`options.override` is set; otherwise the binding is stored in the table. -/
def DataRetrievalRouter.registerOne (r : DataRetrievalRouter) (source : String)
    (retriever : RetrieverFn) (override : Bool) : Except Err DataRetrievalRouter :=
  if (lookupRetriever r.retrievers source).isSome && !override then
    .error ("There is a data retriever already registered for the source: " ++ source)
  else
    .ok (.mk ((source, retriever) :: r.retrievers) r.parent r.context)

/-- The reference-parsing step of `DataRetrievalRouter.prototype.get`:
`split_key = key.split(':')`, modelled on the character list. JavaScript's
`String.prototype.split` with a single-character separator; the empty
string splits to `['']`. -/
def splitColon : List Char → List (List Char)
  | [] => [[]]
  | c :: rest =>
    if c = ':' then [] :: splitColon rest
    else
      match splitColon rest with
      | [] => [[c]]
      | s :: ss => (c :: s) :: ss

/-- The `(source, key)` pair `DataRetrievalRouter.prototype.get` computes
from its `key` argument: when the key has no `':'`, the source defaults to
`'credentials'` and the key is unchanged; otherwise
`source = split_key[0]` and `key = split_key[1]` (the second segment of
the split — not everything after the first colon). -/
def parseRef (key : String) : String × String :=
  if ':' ∈ key.data then
    let parts := splitColon key.data
    (String.mk (parts.headD []), String.mk ((parts.drop 1).headD []))
  else ("credentials", key)

/-- The `context || this.context` fallback of `get` (a supplied context
wins over the router's bound one). -/
def contextOr (supplied bound : Option JsValue) : Option JsValue :=
  match supplied with
  | some c => some c
  | none => bound

/-- `DataRetrievalRouter.prototype.get(key, context)`: parse the reference;
an unregistered source delegates to the parent when one exists — passing
along the already-stripped `key` variable, which the parent then re-parses
— and returns `null` when there is no parent; a registered retriever is
called as `retriever(source, key, context || this.context)`. -/
def DataRetrievalRouter.get (r : DataRetrievalRouter) (key : String)
    (context : Option JsValue) : JsValue :=
  match r with
  | .mk retrieverTable parent boundContext =>
    let parsed := parseRef key
    match lookupRetriever retrieverTable parsed.1 with
    | none =>
      match parent with
      | none => .null
      | some p => p.get parsed.2 (contextOr context boundContext)
    | some retriever => retriever parsed.1 parsed.2 (contextOr context boundContext)

/-! Lemmas about the child-result collection and the combining scans. -/

theorem runAll_ok_of_forall_ok {α : Type} (fn : α → Except Err Decision) (l : List α)
    (h : ∀ x ∈ l, ∃ d, fn x = .ok d) : ∃ ds, runAll fn l = .ok ds := by
  induction l with
  | nil => exact ⟨[], rfl⟩
  | cons x xs ih =>
    obtain ⟨d, hd⟩ := h x (List.mem_cons_self x xs)
    obtain ⟨ds, hds⟩ := ih (fun y hy => h y (List.mem_cons_of_mem _ hy))
    exact ⟨d :: ds, by simp [runAll, hd, hds]⟩

theorem runAll_mem_iff {α : Type} (fn : α → Except Err Decision) (l : List α)
    (ds : List Decision) (h : runAll fn l = .ok ds) (d : Decision) :
    d ∈ ds ↔ ∃ x ∈ l, fn x = .ok d := by
  induction l generalizing ds with
  | nil =>
    simp only [runAll] at h
    injection h with h
    subst h
    simp
  | cons x xs ih =>
    simp only [runAll] at h
    cases hx : fn x with
    | error e => rw [hx] at h; cases h
    | ok dx =>
      rw [hx] at h
      cases hxs : runAll fn xs with
      | error e => rw [hxs] at h; cases h
      | ok dxs =>
        rw [hxs] at h
        injection h with h
        subst h
        rw [List.mem_cons, ih dxs hxs]
        constructor
        · rintro (rfl | ⟨y, hy, hfy⟩)
          · exact ⟨x, List.mem_cons_self x xs, hx⟩
          · exact ⟨y, List.mem_cons_of_mem _ hy, hfy⟩
        · rintro ⟨y, hy, hfy⟩
          rcases List.mem_cons.mp hy with rfl | hy'
          · have hdx := hx.symm.trans hfy
            injection hdx with hdx
            exact Or.inl hdx.symm
          · exact Or.inr ⟨y, hy', hfy⟩

theorem permitOverridesScan_cases (ds : List Decision) :
    (permitOverridesScan ds = .PERMIT ↔ .PERMIT ∈ ds) ∧
    (permitOverridesScan ds = .DENY ↔ .PERMIT ∉ ds) ∧
    permitOverridesScan ds ≠ .UNDETERMINED := by
  unfold permitOverridesScan
  by_cases h : Decision.PERMIT ∈ ds
  · have hany : ds.any (· == .PERMIT) = true := List.any_eq_true.mpr ⟨_, h, by simp⟩
    simp [hany, h]
  · have hany : ds.any (· == .PERMIT) = false := by
      rw [List.any_eq_false]
      intro x hx
      simp only [beq_iff_eq]
      intro hxe
      exact h (hxe ▸ hx)
    simp [hany, h]

theorem denyOverridesScan_cases (ds : List Decision) :
    (denyOverridesScan ds = .DENY ↔ .DENY ∈ ds) ∧
    (denyOverridesScan ds = .PERMIT ↔ .DENY ∉ ds) ∧
    denyOverridesScan ds ≠ .UNDETERMINED := by
  unfold denyOverridesScan
  by_cases h : Decision.DENY ∈ ds
  · have hany : ds.any (· == .DENY) = true := List.any_eq_true.mpr ⟨_, h, by simp⟩
    simp [hany, h]
  · have hany : ds.any (· == .DENY) = false := by
      rw [List.any_eq_false]
      intro x hx
      simp only [beq_iff_eq]
      intro hxe
      exact h (hxe ▸ hx)
    simp [hany, h]

/-- C1: For every list of children and every child evaluator (that yields a
decision on each child of the list), `permit-overrides` returns PERMIT iff
some child evaluates to PERMIT and DENY otherwise, `deny-overrides`
returns DENY iff some child evaluates to DENY and PERMIT otherwise, each
returns UNDETERMINED exactly when the child list is missing or empty, and
for a non-empty list of children that all evaluate to UNDETERMINED,
`deny-overrides` returns PERMIT and `permit-overrides` returns DENY. -/
theorem combineAlg_permit_deny_overrides_spec {α : Type}
    (items : Option (List α)) (fn : α → Except Err Decision)
    (hfn : ∀ l, items = some l → ∀ x ∈ l, ∃ d, fn x = .ok d) :
    ((combinePermitOverrides items fn = .ok .UNDETERMINED ↔
        (items = none ∨ items = some [])) ∧
     (combineDenyOverrides items fn = .ok .UNDETERMINED ↔
        (items = none ∨ items = some []))) ∧
    (∀ l, items = some l → l ≠ [] →
      ((combinePermitOverrides items fn = .ok .PERMIT ↔ ∃ x ∈ l, fn x = .ok .PERMIT) ∧
       (combinePermitOverrides items fn = .ok .DENY ↔ ∀ x ∈ l, fn x ≠ .ok .PERMIT)) ∧
      ((combineDenyOverrides items fn = .ok .DENY ↔ ∃ x ∈ l, fn x = .ok .DENY) ∧
       (combineDenyOverrides items fn = .ok .PERMIT ↔ ∀ x ∈ l, fn x ≠ .ok .DENY)) ∧
      ((∀ x ∈ l, fn x = .ok .UNDETERMINED) →
        combineDenyOverrides items fn = .ok .PERMIT ∧
        combinePermitOverrides items fn = .ok .DENY)) := by
  cases items with
  | none => simp [combinePermitOverrides, combineDenyOverrides]
  | some l =>
    by_cases hl : l = []
    · subst hl
      simp [combinePermitOverrides, combineDenyOverrides]
    · obtain ⟨ds, hds⟩ := runAll_ok_of_forall_ok fn l (hfn l rfl)
      have hmem := runAll_mem_iff fn l ds hds
      have hp := permitOverridesScan_cases ds
      have hd := denyOverridesScan_cases ds
      have hle : l.isEmpty = false := by
        cases l with
        | nil => exact absurd rfl hl
        | cons a as => rfl
      have hcp : combinePermitOverrides (some l) fn = .ok (permitOverridesScan ds) := by
        simp [combinePermitOverrides, hle, hds]
      have hcd : combineDenyOverrides (some l) fn = .ok (denyOverridesScan ds) := by
        simp [combineDenyOverrides, hle, hds]
      refine ⟨⟨?_, ?_⟩, ?_⟩
      · rw [hcp]
        simp only [Except.ok.injEq]
        constructor
        · intro h; exact absurd h hp.2.2
        · rintro (h | h) <;> simp at h
          exact absurd h hl
      · rw [hcd]
        simp only [Except.ok.injEq]
        constructor
        · intro h; exact absurd h hd.2.2
        · rintro (h | h) <;> simp at h
          exact absurd h hl
      · intro l' hl' _
        injection hl' with hl'
        subst hl'
        refine ⟨⟨?_, ?_⟩, ⟨?_, ?_⟩, ?_⟩
        · rw [hcp]; simp only [Except.ok.injEq]
          rw [hp.1, hmem]
        · rw [hcp]; simp only [Except.ok.injEq]
          rw [hp.2.1, hmem]
          push_neg
          exact Iff.rfl
        · rw [hcd]; simp only [Except.ok.injEq]
          rw [hd.1, hmem]
        · rw [hcd]; simp only [Except.ok.injEq]
          rw [hd.2.1, hmem]
          push_neg
          exact Iff.rfl
        · intro hall
          constructor
          · rw [hcd]; simp only [Except.ok.injEq]
            rw [hd.2.1, hmem]
            rintro ⟨x, hx, hfx⟩
            rw [hall x hx] at hfx
            cases hfx
          · rw [hcp]; simp only [Except.ok.injEq]
            rw [hp.2.1, hmem]
            rintro ⟨x, hx, hfx⟩
            rw [hall x hx] at hfx
            cases hfx

/-- Witness for C1 at a concrete input: children `[0, 1]` where `0`
evaluates to DENY and `1` to PERMIT make `permit-overrides` yield PERMIT. -/
theorem combineAlg_permit_deny_overrides_spec_witness :
    combinePermitOverrides (some [0, 1])
        (fun x : Nat => .ok (if x = 0 then .DENY else .PERMIT)) = .ok .PERMIT :=
  ((((combineAlg_permit_deny_overrides_spec (some [0, 1])
      (fun x : Nat => .ok (if x = 0 then .DENY else .PERMIT))
      (fun _ _ x _ => ⟨_, rfl⟩)).2 [0, 1] rfl (by simp)).1).1).mpr
    ⟨1, by simp, by simp⟩

/-- C2 counterexample: a one-element child list evaluating to UNDETERMINED
makes `permit-overrides` return DENY and `deny-overrides` return PERMIT —
not UNDETERMINED as the claim states. -/
theorem combineAlg_undetermined_children_counterexample :
    combinePermitOverrides (some [0]) (fun _ : Nat => .ok .UNDETERMINED) = .ok .DENY ∧
    combineDenyOverrides (some [0]) (fun _ : Nat => .ok .UNDETERMINED) = .ok .PERMIT ∧
    Decision.DENY ≠ .UNDETERMINED ∧ Decision.PERMIT ≠ .UNDETERMINED :=
  ⟨rfl, rfl, by decide, by decide⟩

/-- C2 amended: for every non-empty list of children that all evaluate to
UNDETERMINED, `permit-overrides` returns DENY and `deny-overrides` returns
PERMIT (UNDETERMINED is returned only for a missing or empty child list). -/
theorem combineAlg_all_undetermined_asymmetry {α : Type} (l : List α)
    (fn : α → Except Err Decision) (hne : l ≠ [])
    (hall : ∀ x ∈ l, fn x = .ok .UNDETERMINED) :
    combinePermitOverrides (some l) fn = .ok .DENY ∧
    combineDenyOverrides (some l) fn = .ok .PERMIT := by
  obtain ⟨ds, hds⟩ := runAll_ok_of_forall_ok fn l (fun x hx => ⟨_, hall x hx⟩)
  have hmem := runAll_mem_iff fn l ds hds
  have hle : l.isEmpty = false := by
    cases l with
    | nil => exact absurd rfl hne
    | cons a as => rfl
  have hnp : Decision.PERMIT ∉ ds := by
    rw [hmem]
    rintro ⟨x, hx, hfx⟩
    rw [hall x hx] at hfx
    cases hfx
  have hnd : Decision.DENY ∉ ds := by
    rw [hmem]
    rintro ⟨x, hx, hfx⟩
    rw [hall x hx] at hfx
    cases hfx
  constructor
  · simp only [combinePermitOverrides, hle, hds]
    simp [(permitOverridesScan_cases ds).2.1.mpr hnp]
  · simp only [combineDenyOverrides, hle, hds]
    simp [(denyOverridesScan_cases ds).2.1.mpr hnd]

/-- Witness for C2's amended statement at a concrete input. -/
theorem combineAlg_all_undetermined_asymmetry_witness :
    combinePermitOverrides (some [0]) (fun _ : Nat => .ok .UNDETERMINED) = .ok .DENY ∧
    combineDenyOverrides (some [0]) (fun _ : Nat => .ok .UNDETERMINED) = .ok .PERMIT :=
  combineAlg_all_undetermined_asymmetry [0] (fun _ : Nat => .ok .UNDETERMINED)
    (by simp) (fun _ _ => rfl)

/-! Lemmas about the target matcher. -/

theorem evaluateTargetLoop_anyOf (items : List TargetItem) (env : Env) :
    evaluateTargetLoop (.str "any-of") items env
      = items.any (fun it => targetApplies it.value (env it.type)) := by
  induction items with
  | nil => rfl
  | cons it rest ih =>
    have h1 : jsEq (.str "any-of") (.str "any-of") = true := rfl
    have h2 : jsEq (.str "any-of") (.str "all-of") = false := rfl
    cases h : targetApplies it.value (env it.type) with
    | true => simp [evaluateTargetLoop, h, h1, h2]
    | false => simp [evaluateTargetLoop, h, h1, h2, ih]

theorem evaluateTargetLoop_allOf (items : List TargetItem) (env : Env) :
    evaluateTargetLoop (.str "all-of") items env
      = items.all (fun it => targetApplies it.value (env it.type)) := by
  induction items with
  | nil => rfl
  | cons it rest ih =>
    have h1 : jsEq (.str "all-of") (.str "any-of") = false := rfl
    have h2 : jsEq (.str "all-of") (.str "all-of") = true := rfl
    cases h : targetApplies it.value (env it.type) with
    | true => simp [evaluateTargetLoop, h, h1, h2, ih]
    | false => simp [evaluateTargetLoop, h, h1, h2]

theorem targetApplies_eq_true_iff (t v : JsValue) :
    targetApplies t v = true ↔
      (jsEq t v = true ∨ ∃ ref elems, v = .arr ref elems ∧ ∃ e ∈ elems, jsEq e t = true) := by
  cases hj : jsEq t v with
  | true => simp [targetApplies, hj]
  | false =>
    cases v with
    | arr ref elems =>
      simp [targetApplies, hj, List.any_eq_true, JsValue.arr.injEq]
      constructor
      · rintro ⟨e, he, hje⟩
        exact ⟨ref, elems, ⟨rfl, rfl⟩, e, he, hje⟩
      · rintro ⟨ref', elems', ⟨h1, h2⟩, e, he, hje⟩
        subst h1; subst h2
        exact ⟨e, he, hje⟩
    | str s => simp [targetApplies, hj]
    | num n => simp [targetApplies, hj]
    | boolean b => simp [targetApplies, hj]
    | undefined => simp [targetApplies, hj]
    | null => simp [targetApplies, hj]

theorem list_any_perm {α : Type} (p : α → Bool) {l l' : List α} (h : l.Perm l') :
    l.any p = l'.any p := by
  cases ha : l.any p <;> cases hb : l'.any p <;> try rfl
  · rw [List.any_eq_true] at hb
    obtain ⟨x, hx, hpx⟩ := hb
    have hc : l.any p = true := List.any_eq_true.mpr ⟨x, h.mem_iff.mpr hx, hpx⟩
    rw [ha] at hc; cases hc
  · rw [List.any_eq_true] at ha
    obtain ⟨x, hx, hpx⟩ := ha
    have hc : l'.any p = true := List.any_eq_true.mpr ⟨x, h.mem_iff.mp hx, hpx⟩
    rw [hb] at hc; cases hc

theorem list_all_perm {α : Type} (p : α → Bool) {l l' : List α} (h : l.Perm l') :
    l.all p = l'.all p := by
  cases ha : l.all p <;> cases hb : l'.all p <;> try rfl
  · rw [List.all_eq_true] at hb
    have hc : l.all p = true := List.all_eq_true.mpr (fun x hx => hb x (h.mem_iff.mp hx))
    rw [ha] at hc; cases hc
  · rw [List.all_eq_true] at ha
    have hc : l'.all p = true := List.all_eq_true.mpr (fun x hx => ha x (h.mem_iff.mpr hx))
    rw [hb] at hc; cases hc

/-- C3: For a well-formed array target with at least one item, under any
attribute assignment, `any-of` evaluates to true iff at least one item
matches and `all-of` evaluates to true iff every item matches, where an
item matches iff the actual attribute value strictly equals the expected
value or is an array containing it; and the boolean result of either
combinator is invariant under permutation of the items. -/
theorem evaluateTarget_anyOf_allOf_spec (env : Env) (items : List TargetItem)
    (hne : items ≠ []) :
    (evaluateTarget (.arr (.str "any-of") items) env
        = .ok (items.any (fun it => targetApplies it.value (env it.type)))) ∧
    (evaluateTarget (.arr (.str "all-of") items) env
        = .ok (items.all (fun it => targetApplies it.value (env it.type)))) ∧
    (evaluateTarget (.arr (.str "any-of") items) env = .ok true ↔
        ∃ it ∈ items, targetApplies it.value (env it.type) = true) ∧
    (evaluateTarget (.arr (.str "all-of") items) env = .ok true ↔
        ∀ it ∈ items, targetApplies it.value (env it.type) = true) ∧
    (∀ it : TargetItem, targetApplies it.value (env it.type) = true ↔
        (jsEq it.value (env it.type) = true ∨
         ∃ ref elems, env it.type = .arr ref elems ∧ ∃ e ∈ elems, jsEq e it.value = true)) ∧
    (∀ items' : List TargetItem, items.Perm items' →
        evaluateTarget (.arr (.str "any-of") items) env
          = evaluateTarget (.arr (.str "any-of") items') env ∧
        evaluateTarget (.arr (.str "all-of") items) env
          = evaluateTarget (.arr (.str "all-of") items') env) := by
  have hie : items.isEmpty = false := by
    cases items with
    | nil => exact absurd rfl hne
    | cons a as => rfl
  have hany : evaluateTarget (.arr (.str "any-of") items) env
      = .ok (items.any (fun it => targetApplies it.value (env it.type))) := by
    simp [evaluateTarget, hie, evaluateTargetLoop_anyOf]
  have hall : evaluateTarget (.arr (.str "all-of") items) env
      = .ok (items.all (fun it => targetApplies it.value (env it.type))) := by
    simp [evaluateTarget, hie, evaluateTargetLoop_allOf]
  refine ⟨hany, hall, ?_, ?_, fun it => targetApplies_eq_true_iff it.value (env it.type), ?_⟩
  · rw [hany]
    simp only [Except.ok.injEq, List.any_eq_true]
  · rw [hall]
    simp only [Except.ok.injEq, List.all_eq_true]
  · intro items' hperm
    have hie' : items'.isEmpty = false := by
      cases hi' : items' with
      | nil =>
        subst hi'
        exact absurd hperm.eq_nil hne
      | cons a as => rfl
    constructor
    · rw [hany]
      simp [evaluateTarget, hie', evaluateTargetLoop_anyOf]
      exact list_any_perm _ hperm
    · rw [hall]
      simp [evaluateTarget, hie', evaluateTargetLoop_allOf]
      exact list_all_perm _ hperm

/-- Witness for C3 at a concrete input: target
`['any-of', {type: 'group', value: 'writer'}]` with `group = ['writer']`. -/
theorem evaluateTarget_anyOf_allOf_spec_witness :
    evaluateTarget (.arr (.str "any-of") [⟨"group", .str "writer"⟩])
        (fun s => if s = "group" then .arr 0 [.str "writer"] else .undefined) = .ok true :=
  (evaluateTarget_anyOf_allOf_spec
      (fun s => if s = "group" then .arr 0 [.str "writer"] else .undefined)
      [⟨"group", .str "writer"⟩] (by simp)).2.2.1.mpr
    ⟨⟨"group", .str "writer"⟩, by simp, rfl⟩

theorem jsEq_str_iff (v : JsValue) (s : String) : jsEq v (.str s) = true ↔ v = .str s := by
  cases v <;> simp [jsEq]

theorem jsEq_num_iff (v : JsValue) (n : Int) : jsEq v (.num n) = true ↔ v = .num n := by
  cases v <;> simp [jsEq]

/-- C4: `evaluateRule` yields the missing-rule configuration error when the
rule object is missing; UNDETERMINED when the rule's target does not apply,
regardless of the effect; and, when the target applies, PERMIT for effect
`'permit'` or the code 1, DENY for `'deny'` or the code 0, and the
invalid-effect configuration error for any other effect value. -/
theorem evaluateRule_spec (env : Env) :
    (evaluateRule none env = .error "RBAC rule is missing") ∧
    (∀ r : Rule, evaluateTarget r.target env = .ok false →
        evaluateRule (some r) env = .ok .UNDETERMINED) ∧
    (∀ r : Rule, evaluateTarget r.target env = .ok true →
        (((r.effect = .str "permit" ∨ r.effect = .num 1) →
            evaluateRule (some r) env = .ok .PERMIT) ∧
         ((r.effect = .str "deny" ∨ r.effect = .num 0) →
            evaluateRule (some r) env = .ok .DENY) ∧
         (r.effect ≠ .str "permit" → r.effect ≠ .num 1 →
          r.effect ≠ .str "deny" → r.effect ≠ .num 0 →
            evaluateRule (some r) env = .error "RBAC rule error: invalid effect"))) := by
  refine ⟨rfl, ?_, ?_⟩
  · intro r ht
    simp [evaluateRule, evaluateRuleOn, ht]
  · intro r ht
    have hjb : ∀ b : Bool, ¬b = true → b = false := by decide
    refine ⟨?_, ?_, ?_⟩
    · rintro (he | he) <;> simp [evaluateRule, evaluateRuleOn, ht, he, jsEq]
    · rintro (he | he) <;> simp [evaluateRule, evaluateRuleOn, ht, he, jsEq]
    · intro h1 h2 h3 h4
      have e1 : jsEq r.effect (.str "permit") = false :=
        hjb _ (fun hj => h1 ((jsEq_str_iff _ _).mp hj))
      have e2 : jsEq r.effect (.num 1) = false :=
        hjb _ (fun hj => h2 ((jsEq_num_iff _ _).mp hj))
      have e3 : jsEq r.effect (.str "deny") = false :=
        hjb _ (fun hj => h3 ((jsEq_str_iff _ _).mp hj))
      have e4 : jsEq r.effect (.num 0) = false :=
        hjb _ (fun hj => h4 ((jsEq_num_iff _ _).mp hj))
      simp [evaluateRule, evaluateRuleOn, ht, e1, e2, e3, e4]

/-- Witness for C4 at a concrete input: a rule with an applying target and
effect `'deny'` evaluates to DENY. -/
theorem evaluateRule_spec_witness :
    evaluateRule (some ⟨.absent, .str "deny"⟩) (fun _ => .undefined) = .ok .DENY :=
  (((evaluateRule_spec (fun _ => .undefined)).2.2 ⟨.absent, .str "deny"⟩ rfl).2.1)
    (Or.inl rfl)

/-- The loop of `internals.evaluateTarget` under a combinator that is
neither `'any-of'` nor `'all-of'`: no branch ever fires and the final
`target[0] === 'all-of'` comparison yields false. -/
theorem evaluateTargetLoop_unknown (comb : JsValue) (items : List TargetItem) (env : Env)
    (h1 : jsEq comb (.str "any-of") = false) (h2 : jsEq comb (.str "all-of") = false) :
    evaluateTargetLoop comb items env = false := by
  induction items with
  | nil => simp [evaluateTargetLoop, h2]
  | cons it rest ih => simp [evaluateTargetLoop, h1, h2, ih]

/-- C6 counterexample: the array target `['some-of', {type: 't', value: 1}]`
does not name a valid combinator, yet evaluation yields does-not-apply
(`ok false`), not a configuration error as the claim states. -/
theorem evaluateTarget_invalid_combinator_counterexample :
    evaluateTarget (.arr (.str "some-of") [⟨"t", .num 1⟩]) (fun _ => .null) = .ok false ∧
    (∀ e : Err, evaluateTarget (.arr (.str "some-of") [⟨"t", .num 1⟩]) (fun _ => .null)
        ≠ .error e) := by
  refine ⟨rfl, ?_⟩
  intro e h
  rw [show evaluateTarget (.arr (.str "some-of") [⟨"t", .num 1⟩]) (fun _ => .null)
      = .ok false from rfl] at h
  cases h

/-- C6 amended: a target in array form is a configuration error exactly
when it has no match items after the combinator (in particular
`['all-of']` is an evaluation fault, not UNDETERMINED), as is a truthy
non-array target; an array with at least one item never faults, and with
an unrecognized combinator it evaluates to does-not-apply (false). -/
theorem evaluateTarget_malformed_spec (env : Env) :
    (∀ comb : JsValue, evaluateTarget (.arr comb []) env = .error targetFormatError) ∧
    (evaluateTarget .invalid env = .error targetFormatError) ∧
    (∀ (comb : JsValue) (items : List TargetItem), items ≠ [] →
        ∃ b, evaluateTarget (.arr comb items) env = .ok b) ∧
    (∀ (comb : JsValue) (items : List TargetItem), items ≠ [] →
        jsEq comb (.str "any-of") = false → jsEq comb (.str "all-of") = false →
        evaluateTarget (.arr comb items) env = .ok false) := by
  refine ⟨fun comb => rfl, rfl, ?_, ?_⟩
  · intro comb items hne
    have hie : items.isEmpty = false := by
      cases items with
      | nil => exact absurd rfl hne
      | cons a as => rfl
    exact ⟨evaluateTargetLoop comb items env, by simp [evaluateTarget, hie]⟩
  · intro comb items hne h1 h2
    have hie : items.isEmpty = false := by
      cases items with
      | nil => exact absurd rfl hne
      | cons a as => rfl
    simp [evaluateTarget, hie, evaluateTargetLoop_unknown comb items env h1 h2]

/-- Witness for C6's amended statement at a concrete input. -/
theorem evaluateTarget_malformed_spec_witness :
    evaluateTarget (.arr (.str "only-one-applicable") [⟨"t", .num 1⟩]) (fun _ => .null)
      = .ok false :=
  (evaluateTarget_malformed_spec (fun _ => .null)).2.2.2 (.str "only-one-applicable")
    [⟨"t", .num 1⟩] (by simp) rfl rfl

/-- C10 counterexample: when the actual attribute value is the very same
array object as the expected array (same reference tag), the item matches
via `target === value`, although the actual value does not contain the
expected array as an element — the claim's "only when contained" is too
narrow. -/
theorem targetApplies_array_self_reference_counterexample :
    targetApplies (.arr 0 []) (.arr 0 []) = true ∧
    (¬ ∃ e ∈ ([] : List JsValue), jsEq e (.arr 0 []) = true) :=
  ⟨rfl, by simp⟩

/-- C10 amended: an item whose expected value is an array matches exactly
when the actual value is the same array object (strict reference equality)
or is an array containing that object as an element; the expected array is
never compared element-wise, so a distinct actual array whose elements are
all non-arrays never matches, whatever those elements are. -/
theorem targetApplies_array_expected_spec (ref : Nat) (elems : List JsValue) (v : JsValue) :
    (targetApplies (.arr ref elems) v = true ↔
      (jsEq (.arr ref elems) v = true ∨
       ∃ ref2 elems2, v = .arr ref2 elems2 ∧ ∃ e ∈ elems2, jsEq e (.arr ref elems) = true)) ∧
    (∀ ref2 elems2, v = .arr ref2 elems2 → ref ≠ ref2 →
      (∀ e ∈ elems2, ∀ r3 es3, e ≠ .arr r3 es3) →
      targetApplies (.arr ref elems) v = false) := by
  constructor
  · exact targetApplies_eq_true_iff _ v
  · rintro ref2 elems2 rfl hne hsc
    have hj : jsEq (.arr ref elems) (.arr ref2 elems2) = false := by
      simp [jsEq, hne]
    simp only [targetApplies, hj, Bool.false_eq_true, if_false]
    rw [List.any_eq_false]
    intro e he
    cases e with
    | arr r3 es3 => exact absurd rfl (hsc _ he r3 es3)
    | str s => simp [jsEq]
    | num n => simp [jsEq]
    | boolean b => simp [jsEq]
    | undefined => simp [jsEq]
    | null => simp [jsEq]

/-- Witness for C10's amended statement at a concrete input: a distinct
array with the same (scalar) contents does not match. -/
theorem targetApplies_array_expected_spec_witness :
    targetApplies (.arr 0 [.num 7]) (.arr 1 [.num 7]) = false :=
  (targetApplies_array_expected_spec 0 [.num 7] (.arr 1 [.num 7])).2 1 [.num 7] rfl
    (by decide) (by intro e he r3 es3; simp at he; subst he; simp)

/-- C5 counterexample: a node whose `apply` names `'first-applicable'` —
listed in the source comment but absent from the `internals.combineAlg`
table — is a configuration error even though its target evaluates to
does-not-apply, so evaluatePolicy does not return UNDETERMINED for it. -/
theorem evaluatePolicy_nonapplying_target_counterexample :
    evaluateTarget (.arr (.str "any-of") [⟨"group", .str "admin"⟩]) (fun _ => .null)
      = .ok false ∧
    evaluatePolicyNode
        (.mk (.arr (.str "any-of") [⟨"group", .str "admin"⟩])
          (some (.name "first-applicable")) none (some [⟨.absent, .str "permit"⟩]) .undefined)
        (fun _ => .null)
      = .error "RBAC error: combinatory algorithm does not exist: first-applicable" :=
  ⟨rfl, rfl⟩

/-- C5 amended: for every policy node whose combining algorithm resolves
(absent, a function, or a registered identifier) and whose target
evaluates to does-not-apply, `evaluatePolicy` returns UNDETERMINED and no
child is evaluated: the result is the same for arbitrary `policies` and
`rules` fields, which are returned untouched. -/
theorem evaluatePolicy_nonapplying_target_undetermined
    (t : Target) (a : Option ApplyField) (ps : Option PolicyList)
    (rs : Option (List Rule)) (e : JsValue) (env : Env) (alg : AlgId)
    (ha : resolveApply a = .ok alg)
    (ht : evaluateTarget t env = .ok false) :
    evaluatePolicyNode (.mk t a ps rs e) env
      = .ok (.UNDETERMINED, .mk t (some (.alg alg)) ps rs e) := by
  simp [evaluatePolicyNode.eq_1, ha, ht]

/-- Witness for C5's amended statement at a concrete input. -/
theorem evaluatePolicy_nonapplying_target_undetermined_witness :
    evaluatePolicyNode
        (.mk (.arr (.str "any-of") [⟨"group", .str "admin"⟩]) none none
          (some [⟨.absent, .str "permit"⟩]) .undefined) (fun _ => .null)
      = .ok (.UNDETERMINED, .mk (.arr (.str "any-of") [⟨"group", .str "admin"⟩])
          (some (.alg .permitOverrides)) none (some [⟨.absent, .str "permit"⟩]) .undefined) :=
  evaluatePolicy_nonapplying_target_undetermined _ none none _ _ _ .permitOverrides rfl rfl

/-- C9 counterexample: evaluating a bare-rule node whose `apply` field is
absent writes the resolved `permit-overrides` function into the node, so
the `apply` field of the node after evaluation differs from before. -/
theorem evaluatePolicy_mutates_apply_counterexample :
    evaluatePolicyNode (.mk .absent none none none (.str "permit")) (fun _ => .null)
      = .ok (.PERMIT, .mk .absent (some (.alg .permitOverrides)) none none (.str "permit")) ∧
    (PolicyNode.mk .absent (some (.alg .permitOverrides)) none none (.str "permit")).applyF
      ≠ (PolicyNode.mk .absent none none none (.str "permit")).applyF :=
  ⟨rfl, by simp [PolicyNode.applyF]⟩

theorem eraseApplyList_cons (h : PolicyNode) (t : PolicyList) :
    eraseApplyList (.cons h t) = .cons (eraseApply h) (eraseApplyList t) := by
  rw [eraseApplyList.eq_def]

theorem eraseApply_mk_some (t : Target) (a : Option ApplyField) (l : PolicyList)
    (rs : Option (List Rule)) (e : JsValue) :
    eraseApply (.mk t a (some l) rs e) = .mk t none (some (eraseApplyList l)) rs e := by
  rw [eraseApply.eq_def]

theorem eraseApply_applyF_irrel (t : Target) (a a' : Option ApplyField)
    (ps : Option PolicyList) (rs : Option (List Rule)) (e : JsValue) :
    eraseApply (.mk t a ps rs e) = eraseApply (.mk t a' ps rs e) := by
  rw [eraseApply.eq_def, eraseApply.eq_def]

mutual
/-- Every successful node evaluation preserves the `apply`-erased tree
(proved simultaneously with the list form; the C9 theorem below wraps it). -/
theorem eraseApply_after_evaluateNode (n : PolicyNode) (env : Env) :
    ∀ d n', evaluatePolicyNode n env = .ok (d, n') → eraseApply n' = eraseApply n := by
  intro d n' h
  cases n with
  | mk t a ps rs e =>
    cases ha : resolveApply a with
    | error er => simp [evaluatePolicyNode.eq_1, ha] at h
    | ok alg =>
      cases htg : evaluateTarget t env with
      | error er => simp [evaluatePolicyNode.eq_1, ha, htg] at h
      | ok applies =>
        cases applies with
        | false =>
          simp only [evaluatePolicyNode.eq_1, ha, htg, Bool.not_false, eq_self_iff_true,
            if_true, Except.ok.injEq, Prod.mk.injEq] at h
          rcases h with ⟨rfl, rfl⟩
          exact eraseApply_applyF_irrel t _ a ps rs e
        | true =>
          cases ps with
          | some psl =>
            cases hnil : psl.isNil with
            | true =>
              simp only [evaluatePolicyNode.eq_1, ha, htg, hnil, Bool.not_true,
                Bool.false_eq_true, if_false, eq_self_iff_true, if_true,
                Except.ok.injEq, Prod.mk.injEq] at h
              rcases h with ⟨rfl, rfl⟩
              exact eraseApply_applyF_irrel t _ a (some psl) rs e
            | false =>
              cases hl : evaluatePolicyList psl env with
              | error er =>
                simp [evaluatePolicyNode.eq_1, ha, htg, hnil, hl] at h
              | ok pair =>
                obtain ⟨ds0, psl'⟩ := pair
                simp only [evaluatePolicyNode.eq_1, ha, htg, hnil, Bool.not_true,
                  Bool.false_eq_true, if_false, hl, Except.ok.injEq, Prod.mk.injEq] at h
                rcases h with ⟨rfl, rfl⟩
                have ih := eraseApply_after_evaluateList psl env ds0 psl' hl
                rw [eraseApply_mk_some, eraseApply_mk_some, ih]
          | none =>
            cases rs with
            | some rl =>
              cases hre : rl.isEmpty with
              | true =>
                simp only [evaluatePolicyNode.eq_1, ha, htg, hre, Bool.not_true,
                  Bool.false_eq_true, if_false, eq_self_iff_true, if_true,
                  Except.ok.injEq, Prod.mk.injEq] at h
                rcases h with ⟨rfl, rfl⟩
                exact eraseApply_applyF_irrel t _ a none (some rl) e
              | false =>
                cases hrl : runAll (fun r => evaluateRule (some r) env) rl with
                | error er =>
                  simp [evaluatePolicyNode.eq_1, ha, htg, hre, hrl] at h
                | ok ds0 =>
                  simp only [evaluatePolicyNode.eq_1, ha, htg, hre, Bool.not_true,
                    Bool.false_eq_true, if_false, hrl, Except.ok.injEq, Prod.mk.injEq] at h
                  rcases h with ⟨rfl, rfl⟩
                  exact eraseApply_applyF_irrel t _ a none (some rl) e
            | none =>
              cases hrr : evaluateRuleOn t e env with
              | error er =>
                simp [evaluatePolicyNode.eq_1, ha, htg, hrr] at h
              | ok dd =>
                simp only [evaluatePolicyNode.eq_1, ha, htg, Bool.not_true,
                  Bool.false_eq_true, if_false, hrr, Except.ok.injEq, Prod.mk.injEq] at h
                rcases h with ⟨rfl, rfl⟩
                exact eraseApply_applyF_irrel t _ a none none e

/-- The list form of the preservation property, proved simultaneously. -/
theorem eraseApply_after_evaluateList (l : PolicyList) (env : Env) :
    ∀ ds l', evaluatePolicyList l env = .ok (ds, l') → eraseApplyList l' = eraseApplyList l := by
  intro ds l' h
  cases l with
  | nil =>
    simp only [evaluatePolicyList.eq_1, Except.ok.injEq, Prod.mk.injEq] at h
    rcases h with ⟨rfl, rfl⟩
    rfl
  | cons hd tl =>
    cases hh : evaluatePolicyNode hd env with
    | error er => simp [evaluatePolicyList.eq_2, hh] at h
    | ok pair =>
      obtain ⟨d0, hd'⟩ := pair
      cases htl : evaluatePolicyList tl env with
      | error er => simp [evaluatePolicyList.eq_2, hh, htl] at h
      | ok pair2 =>
        obtain ⟨ds0, tl'⟩ := pair2
        simp only [evaluatePolicyList.eq_2, hh, htl, Except.ok.injEq, Prod.mk.injEq] at h
        rcases h with ⟨rfl, rfl⟩
        have ih1 := eraseApply_after_evaluateNode hd env d0 hd' hh
        have ih2 := eraseApply_after_evaluateList tl env ds0 tl' htl
        rw [eraseApplyList_cons, eraseApplyList_cons, ih1, ih2]
end

/-- C9 amended: a successful `evaluatePolicy` changes at most the `apply`
fields of the evaluated node and of its recursively evaluated descendants
(normalising them to the resolved combining function); every other field
of every node — target, policies structure, rules, effect — is unchanged,
as witnessed by equality after erasing all `apply` fields. -/
theorem evaluatePolicy_modifies_only_apply (n : PolicyNode) (env : Env)
    (d : Decision) (n' : PolicyNode) (h : evaluatePolicyNode n env = .ok (d, n')) :
    eraseApply n' = eraseApply n :=
  eraseApply_after_evaluateNode n env d n' h

/-- Witness for C9's amended statement at a concrete input. -/
theorem evaluatePolicy_modifies_only_apply_witness :
    eraseApply (.mk .absent (some (.alg .permitOverrides)) none none (.str "permit"))
      = eraseApply (.mk .absent none none none (.str "permit")) :=
  evaluatePolicy_modifies_only_apply (.mk .absent none none none (.str "permit"))
    (fun _ => .null) .PERMIT
    (.mk .absent (some (.alg .permitOverrides)) none none (.str "permit")) rfl

/-! Lemmas about the data retrieval router. -/

theorem splitColon_no_colon (l : List Char) (h : ':' ∉ l) : splitColon l = [l] := by
  induction l with
  | nil => rfl
  | cons c cs ih =>
    have hc : ¬c = ':' := fun hc => h (hc ▸ List.mem_cons_self c cs)
    have hcs : ':' ∉ cs := fun hm => h (List.mem_cons_of_mem _ hm)
    simp [splitColon, hc, ih hcs]

theorem splitColon_append (s rest : List Char) (h : ':' ∉ s) :
    splitColon (s ++ ':' :: rest) = s :: splitColon rest := by
  induction s with
  | nil => simp [splitColon]
  | cons c cs ih =>
    have hc : ¬c = ':' := fun hc => h (hc ▸ List.mem_cons_self c cs)
    have hcs : ':' ∉ cs := fun hm => h (List.mem_cons_of_mem _ hm)
    simp [splitColon, hc, ih hcs]

/-- C7 (failing input): a parent router with a retriever registered only
for source `x`, and a child created from it with `createChild`.  The
parent itself resolves `'x:key'` through that retriever, but the child
returns `null` for the same reference: the delegation step passes the
already-stripped key `'key'` to the parent, which re-parses it under the
default `'credentials'` source and finds nothing — the lookup never
reaches the parent's `x` retriever. -/
theorem routerGet_child_delegation_drops_source :
    (DataRetrievalRouter.get (.mk [("x", fun _ k _ => .str ("vx-" ++ k))] none none)
        "x:key" none = .str "vx-key") ∧
    (DataRetrievalRouter.get
        ((DataRetrievalRouter.mk [("x", fun _ k _ => .str ("vx-" ++ k))] none none).createChild
          .null) "x:key" none = .null) ∧
    JsValue.null ≠ .str "vx-key" :=
  ⟨rfl, rfl, fun h => JsValue.noConfusion h⟩

/-- C8 counterexample: with a retriever for source `a` that returns the
key it receives, `get('a:b:c')` yields `'b'`, not `'b:c'`: the key passed
on is `split_key[1]`, the second segment of the split, not everything
after the first colon as the claim states. -/
theorem routerGet_multi_colon_counterexample :
    DataRetrievalRouter.get (.mk [("a", fun _ k _ => .str k)] none none) "a:b:c" none
      = .str "b" ∧
    JsValue.str "b" ≠ .str "b:c" := by
  refine ⟨rfl, ?_⟩
  intro h
  injection h with h
  exact absurd h (by decide)

/-- C8 amended: `get` parses its reference by splitting on `':'` and
taking `(source, key) = (first segment, second segment)` — any text after
a second colon is discarded; a reference without `':'` keeps the whole
reference as key under the default source `'credentials'`; and a reference
whose source is not registered returns `null` (not an error) on a router
without a parent. -/
theorem routerGet_parse_spec :
    (∀ key : String, ':' ∉ key.data → parseRef key = ("credentials", key)) ∧
    (∀ s k rest : List Char, ':' ∉ s → ':' ∉ k →
        parseRef (String.mk (s ++ ':' :: (k ++ ':' :: rest))) = (String.mk s, String.mk k)) ∧
    (∀ s k : List Char, ':' ∉ s → ':' ∉ k →
        parseRef (String.mk (s ++ ':' :: k)) = (String.mk s, String.mk k)) ∧
    (∀ (table : List (String × RetrieverFn)) (bound : Option JsValue) (key : String)
        (context : Option JsValue),
        lookupRetriever table (parseRef key).1 = none →
        DataRetrievalRouter.get (.mk table none bound) key context = .null) := by
  refine ⟨?_, ?_, ?_, ?_⟩
  · intro key h
    simp [parseRef, h]
  · intro s k rest hs hk
    have hmem : ':' ∈ (String.mk (s ++ ':' :: (k ++ ':' :: rest))).data := by
      show ':' ∈ s ++ ':' :: (k ++ ':' :: rest)
      simp
    have hsplit : splitColon (s ++ ':' :: (k ++ ':' :: rest)) = s :: k :: splitColon rest := by
      rw [splitColon_append s _ hs, splitColon_append k rest hk]
    simp [parseRef, hmem, hsplit]
  · intro s k hs hk
    have hmem : ':' ∈ (String.mk (s ++ ':' :: k)).data := by
      show ':' ∈ s ++ ':' :: k
      simp
    have hsplit : splitColon (s ++ ':' :: k) = s :: [k] := by
      rw [splitColon_append s k hs, splitColon_no_colon k hk]
    simp [parseRef, hmem, hsplit]
  · intro table bound key context h
    simp [DataRetrievalRouter.get.eq_def, h]

/-- Witness for C8's amended statement at a concrete input:
`'a:b:c'` parses to source `'a'` and key `'b'`. -/
theorem routerGet_parse_spec_witness :
    parseRef (String.mk (['a'] ++ ':' :: (['b'] ++ ':' :: ['c']))) = (String.mk ['a'], String.mk ['b']) :=
  routerGet_parse_spec.2.1 ['a'] ['b'] ['c'] (by decide) (by decide)

/-!
Coherence of the evaluator with the combining-algorithm table: the
`policies` branch of `evaluatePolicyNode` computes exactly what the
corresponding entry of `internals.combineAlg` computes when handed the
children and `internals.evaluatePolicy` as the child evaluator.
-/

theorem except_map_ok {α β : Type} (f : α → β) (a : α) :
    (Except.ok (ε := Err) a).map f = .ok (f a) := rfl

theorem except_map_error {α β : Type} (f : α → β) (er : Err) :
    (Except.error (α := α) er).map f = (.error er : Except Err β) := rfl

theorem evaluatePolicyList_fst (l : PolicyList) (env : Env) :
    runAll (fun c => (evaluatePolicyNode c env).map (·.1)) l.toList
      = (evaluatePolicyList l env).map (·.1) := by
  cases l with
  | nil => simp [PolicyList.toList, runAll, evaluatePolicyList.eq_1, except_map_ok]
  | cons hd tl =>
    have ih := evaluatePolicyList_fst tl env
    cases hh : evaluatePolicyNode hd env with
    | error er =>
      simp [PolicyList.toList, runAll, evaluatePolicyList.eq_2, hh, except_map_error,
        except_map_ok]
    | ok pair =>
      obtain ⟨d, hd'⟩ := pair
      cases htl : evaluatePolicyList tl env with
      | error er =>
        rw [htl, except_map_error] at ih
        simp [PolicyList.toList, runAll, evaluatePolicyList.eq_2, hh, htl, ih,
          except_map_error, except_map_ok]
      | ok pair2 =>
        obtain ⟨ds, tl'⟩ := pair2
        rw [htl, except_map_ok] at ih
        simp [PolicyList.toList, runAll, evaluatePolicyList.eq_2, hh, htl, ih,
          except_map_error, except_map_ok]

theorem evaluatePolicyNode_policies_eq_combine (t : Target) (a : Option ApplyField)
    (psl : PolicyList) (rs : Option (List Rule)) (e : JsValue) (env : Env) (alg : AlgId)
    (ha : resolveApply a = .ok alg) (ht : evaluateTarget t env = .ok true) :
    (evaluatePolicyNode (.mk t a (some psl) rs e) env).map (·.1)
      = (match alg with
         | .permitOverrides =>
             combinePermitOverrides (some psl.toList)
               (fun c => (evaluatePolicyNode c env).map (·.1))
         | .denyOverrides =>
             combineDenyOverrides (some psl.toList)
               (fun c => (evaluatePolicyNode c env).map (·.1))) := by
  have hfst := evaluatePolicyList_fst psl env
  cases psl with
  | nil =>
    cases alg with
    | permitOverrides =>
      simp [evaluatePolicyNode.eq_1, ha, ht, PolicyList.isNil, PolicyList.toList,
        combinePermitOverrides, except_map_ok]
    | denyOverrides =>
      simp [evaluatePolicyNode.eq_1, ha, ht, PolicyList.isNil, PolicyList.toList,
        combineDenyOverrides, except_map_ok]
  | cons hd tl =>
    have hne : (PolicyList.cons hd tl).toList.isEmpty = false := rfl
    cases hl : evaluatePolicyList (.cons hd tl) env with
    | error er =>
      rw [hl, except_map_error] at hfst
      cases alg with
      | permitOverrides =>
        simp [evaluatePolicyNode.eq_1, ha, ht, PolicyList.isNil, hl,
          combinePermitOverrides, hne, hfst, except_map_error, except_map_ok]
      | denyOverrides =>
        simp [evaluatePolicyNode.eq_1, ha, ht, PolicyList.isNil, hl,
          combineDenyOverrides, hne, hfst, except_map_error, except_map_ok]
    | ok pair =>
      obtain ⟨ds, psl'⟩ := pair
      rw [hl, except_map_ok] at hfst
      cases alg with
      | permitOverrides =>
        simp [evaluatePolicyNode.eq_1, ha, ht, PolicyList.isNil, hl,
          combinePermitOverrides, hne, hfst, except_map_error, except_map_ok, AlgId.scan]
      | denyOverrides =>
        simp [evaluatePolicyNode.eq_1, ha, ht, PolicyList.isNil, hl,
          combineDenyOverrides, hne, hfst, except_map_error, except_map_ok, AlgId.scan]

/-!
Validation of the embedding against the repository's own policy-set unit
tests (test file "Policy set unit tests"): the nested policy set combining
`deny-overrides` rules for premium writers with `permit-overrides` rules
for non-premium users, evaluated under the attribute environments of the
individual test cases.
-/

/-- The policy set used by the repository's policy-set unit tests. -/
def testPolicySet : PolicyNode :=
  .mk (.arr (.str "any-of") [⟨"group", .str "writer"⟩, ⟨"group", .str "publisher"⟩])
    (some (.name "permit-overrides"))
    (some (.cons
      (.mk (.arr (.str "all-of") [⟨"group", .str "writer"⟩, ⟨"premium", .boolean true⟩])
        (some (.name "deny-overrides")) none
        (some [⟨.arr (.str "any-of") [⟨"username", .str "bad_user"⟩], .str "deny"⟩,
               ⟨.arr (.str "any-of") [⟨"blocked", .boolean true⟩], .str "deny"⟩,
               ⟨.absent, .str "permit"⟩]) .undefined)
      (.cons
        (.mk (.arr (.str "all-of") [⟨"premium", .boolean false⟩])
          (some (.name "permit-overrides")) none
          (some [⟨.arr (.str "any-of") [⟨"username", .str "special_user"⟩], .str "permit"⟩,
                 ⟨.absent, .str "deny"⟩]) .undefined)
        .nil)))
    none .undefined

/-- The attribute environment of one unit-test case: a username, a group
array, and premium/blocked booleans, everything else `undefined`. -/
def testInformation (username : String) (groups : List String)
    (premium blocked : Bool) : Env := fun s =>
  if s = "username" then .str username
  else if s = "group" then .arr 0 (groups.map .str)
  else if s = "premium" then .boolean premium
  else if s = "blocked" then .boolean blocked
  else .undefined

/-- The decisions of the repository's policy-set unit tests, reproduced by
the embedding: permit a premium writer, deny the blocked `bad_user`, deny
a non-premium publisher, permit the special non-premium users, and deny a
premium-only publisher. -/
theorem testPolicySet_decisions :
    ((evaluatePolicyNode testPolicySet (testInformation "user00001" ["writer"] true false)).map
        (·.1) = .ok .PERMIT) ∧
    ((evaluatePolicyNode testPolicySet (testInformation "bad_user" ["writer"] true false)).map
        (·.1) = .ok .DENY) ∧
    ((evaluatePolicyNode testPolicySet (testInformation "user00002" ["publisher"] false false)).map
        (·.1) = .ok .DENY) ∧
    ((evaluatePolicyNode testPolicySet (testInformation "special_user" ["publisher"] false false)).map
        (·.1) = .ok .PERMIT) ∧
    ((evaluatePolicyNode testPolicySet (testInformation "special_user" ["writer"] false false)).map
        (·.1) = .ok .PERMIT) ∧
    ((evaluatePolicyNode testPolicySet (testInformation "user00003" ["publisher"] true false)).map
        (·.1) = .ok .DENY) :=
  ⟨rfl, rfl, rfl, rfl, rfl, rfl⟩

end HapiRbac
